import Mathlib

/-!
Shallow embedding of `src/module/wide_resnet.py` (class `Wide_ResNet_Cifar`
and `BasicBlock`).  Tensor payloads inside checkpoint dictionaries are opaque
(`Nat` identifiers); architecture parameters are rational matrices; file
systems map checkpoint names to state dictionaries.  Fallible Python code
(`torch.load` on a missing file, tensor indexing out of range, a failed
strict `load_state_dict`) is modelled with `Except`.
-/

/-- A PyTorch state dict: string keys to opaque tensor payloads, in insertion
order (Python dicts preserve insertion order). -/
abbrev StateDict := List (String × Nat)

/-- Dictionary lookup (`d[k]` / `k in d`): the first entry with key `k`. -/
def dictFind (d : StateDict) (k : String) : Option Nat :=
  match d.find? (fun kv => kv.1 == k) with
  | some kv => some kv.2
  | none => none

/-- Python `d.update(m)`: existing keys of `d` are overwritten in place with
the value from `m`, and keys of `m` absent from `d` are appended in order. -/
def dictUpdate (d m : StateDict) : StateDict :=
  d.map (fun kv => (kv.1, (dictFind m kv.1).getD kv.2)) ++
    m.filter (fun kv => (dictFind d kv.1).isNone)

/-- The file system seen by `torch.load`: checkpoint name to saved dict. -/
abbrev FS := String → Option StateDict

/-- Checkpoint file name
`"{}/{}_cross_entropy_{}.model".format(weight_root, model_name, n)`. -/
def checkpointName (root model : String) (n : Nat) : String :=
  root ++ "/" ++ model ++ "_cross_entropy_" ++ toString n ++ ".model"

/-- The list `self.block_names = ['layer1','layer2','layer3','fc']`. -/
def blockNames : List String := ["layer1", "layer2", "layer3", "fc"]

/-- Number of leading characters dropped from a matching key:
`k[3:]` when `block_name == 'fc'`, else `k[7:]`. -/
def dropCount (block_name : String) : Nat :=
  if block_name = "fc" then 3 else 7

/-- Python `k.startswith(pre)`: character-level prefix test (all keys here
are ASCII, so characters and bytes agree). -/
def strHasPre (pre k : String) : Bool :=
  List.isPrefixOf pre.data k.data

/-- Python slicing `k[n:]`: drop the first `n` characters. -/
def strDrop (k : String) (n : Nat) : String :=
  String.mk (k.data.drop n)

/-- The comprehension
`{k[3 or 7:]: v for k, v in model_dict.items() if k.startswith(block_name)}`. -/
def modifiedDict (block_name : String) (d : StateDict) : StateDict :=
  (d.filter (fun kv => strHasPre block_name kv.1)).map
    (fun kv => (strDrop kv.1 (dropCount block_name), kv.2))

/-- The checkpoint dict after `model_dict.update(modified_dict)`. -/
def mergedDict (block_name : String) (d : StateDict) : StateDict :=
  dictUpdate d (modifiedDict block_name d)

/-- Modelled from the spec: `gumbel_softmax_v1` is imported from `utils`,
which is not under `src/`; the spec describes the call only as the
Gumbel-Softmax of the architecture parameters with temperature `tau` and the
stored Gumbel noise `g` along the last dimension.  We model it as the
row-wise normalisation of a fixed positive strictly monotone rational
surrogate `expA` of the real exponential applied to `(alphas + g) / tau`
(the real exponential is not rational-valued); every claim settled below
depends only on `gumbel_softmax` being a deterministic function of
`(alphas, tau, g)` that returns one weight row per row of `alphas`, never on
the numeric value of a weight. -/
def expA (x : ℚ) : ℚ :=
  if 0 ≤ x then x + 1 else 1 / (1 - x)

/-- Row-wise normalisation step of the modelled Gumbel-Softmax. -/
def softmaxRow (r : List ℚ) : List ℚ :=
  let e := r.map expA
  let total := e.foldl (· + ·) 0
  e.map (· / total)

/-- Modelled from the spec (see `expA`): `gumbel_softmax(alphas, tau=tau,
dim=-1, g=g)`, a deterministic function of its three arguments. -/
def gumbel_softmax (alphas : List (List ℚ)) (tau : ℚ) (g : List (List ℚ)) :
    List (List ℚ) :=
  List.zipWith
    (fun arow grow =>
      softmaxRow (List.zipWith (fun a b => (a + b) / tau) arow grow))
    alphas g

/-- First index attaining the maximum, scanning tail `r` with current best
value `bv` at index `best`, next index `i`. -/
def argmaxAux : List ℚ → Nat → ℚ → Nat → Nat
  | [], _, _, best => best
  | x :: xs, i, bv, best =>
      if bv < x then argmaxAux xs (i + 1) x i else argmaxAux xs (i + 1) bv best

/-- `torch.argmax(row)`: index of the first maximal entry of the row. -/
def argmaxRow : List ℚ → Nat
  | [] => 0
  | x :: xs => argmaxAux xs 1 x 0

/-- State of a `Wide_ResNet_Cifar` instance.  The parameter/buffer dicts of
the stem and the four named blocks carry the keys as seen from each
submodule; `alphas` and `gumbel` are plain tensor attributes (not registered
parameters, so no `load_state_dict` call touches them); `ops` is the
candidate-operation table `self.ops`. -/
structure WRNState where
  conv1 : StateDict
  bn1 : StateDict
  layer1 : StateDict
  layer2 : StateDict
  layer3 : StateDict
  fc : StateDict
  alphas : List (List ℚ)
  gumbel : List (List ℚ)
  tau : ℚ
  temp : ℚ
  weight_root : String
  model_name : String
  ops : List Nat
deriving DecidableEq

/-- Dict of the named block `bn` of the model (`getattr(self, bn)`). -/
def blockOf (s : WRNState) (bn : String) : StateDict :=
  if bn = "layer1" then s.layer1
  else if bn = "layer2" then s.layer2
  else if bn = "layer3" then s.layer3
  else if bn = "fc" then s.fc
  else []

/-- Result of `_initialize_alphas`, with the two random draws (the standard
normal sample `r` and the Gumbel sample `g` of `gumbel_like`) passed in:
`self.alphas = 1e-3 * r` and `self.gumbel = g`. -/
def initAlphas (s : WRNState) (r g : List (List ℚ)) : WRNState :=
  { s with alphas := r.map (fun row => row.map (fun x => x / 1000)),
           gumbel := g }

/-- Return value of `arch_weights`, whose Python type is
`Union[List[tensor], tensor]`. -/
inductive ArchW where
  | catW (w : List ℚ) : ArchW
  | uncatW (w : List (List ℚ)) : ArchW
deriving DecidableEq

/-- `Wide_ResNet_Cifar.arch_weights(smooth, cat)`:
`weights = gumbel_softmax(self.alphas, tau=self._tau, dim=-1, g=self.gumbel)`
then `torch.cat(weights)` when `cat` else `weights` (the `smooth` argument is
never used in the body). -/
def arch_weights (s : WRNState) (smooth : Bool) (cat : Bool) : ArchW :=
  let weights := gumbel_softmax s.alphas s.tau s.gumbel
  let _ := smooth
  if cat then ArchW.catW weights.flatten else ArchW.uncatW weights

/-- Extract the uncatenated form (the only form reaching
`load_gumbel_weight`, which calls `arch_weights(cat=False)`). -/
def uncatOf : ArchW → List (List ℚ)
  | ArchW.uncatW w => w
  | ArchW.catW w => [w]

/-- Submodule-level `load_state_dict(m, strict=False)`: the parameter or
buffer named `k` is overwritten exactly when `m` contains the key `k`;
missing keys are left unchanged, unexpected keys of `m` are ignored. -/
def loadSD (cur m : StateDict) : StateDict :=
  cur.map (fun kv => (kv.1, (dictFind m kv.1).getD kv.2))

/-- Same, for a submodule mounted under the qualified-name marker `pre`
inside the whole-model dict (parameter `k` matches key `pre ++ k`). -/
def loadSub (pre : String) (cur m : StateDict) : StateDict :=
  cur.map (fun kv => (kv.1, (dictFind m (pre ++ kv.1)).getD kv.2))

/-- Whole-model `self.load_state_dict(m, strict=False)`: every registered
parameter and buffer is matched under its qualified name; the plain
attributes `alphas`, `gumbel`, `ops`, `temp`, `_tau`, `weight_root` and
`model_name` are not registered and are untouched. -/
def loadWhole (s : WRNState) (m : StateDict) : WRNState :=
  { s with conv1 := loadSub "conv1." s.conv1 m,
           bn1 := loadSub "bn1." s.bn1 m,
           layer1 := loadSub "layer1." s.layer1 m,
           layer2 := loadSub "layer2." s.layer2 m,
           layer3 := loadSub "layer3." s.layer3 m,
           fc := loadSub "fc." s.fc m }

/-- Qualified names of every registered parameter and buffer of the model. -/
def fullKeys (s : WRNState) : List String :=
  s.conv1.map (fun kv => "conv1." ++ kv.1) ++
    s.bn1.map (fun kv => "bn1." ++ kv.1) ++
    s.layer1.map (fun kv => "layer1." ++ kv.1) ++
    s.layer2.map (fun kv => "layer2." ++ kv.1) ++
    s.layer3.map (fun kv => "layer3." ++ kv.1) ++
    s.fc.map (fun kv => "fc." ++ kv.1)

/-- Whole-model `self.load_state_dict(m, strict=True)`: raises unless the
keys of `m` are exactly the model's qualified parameter and buffer names. -/
def loadWholeStrict (s : WRNState) (m : StateDict) : Except String WRNState :=
  if ((fullKeys s).all (fun k => (dictFind m k).isSome) &&
      m.all (fun kv => (fullKeys s).contains kv.1))
  then Except.ok (loadWhole s m)
  else Except.error "strict load_state_dict key mismatch"

/-- `getattr(self, block_name).load_state_dict(m, strict=False)`: the named
block's dict is loaded from `m`; every other field is untouched (a name
outside `block_names` would raise in Python and is never reached). -/
def applyBlockLoad (s : WRNState) (bn : String) (m : StateDict) : WRNState :=
  if bn = "layer1" then { s with layer1 := loadSD s.layer1 m }
  else if bn = "layer2" then { s with layer2 := loadSD s.layer2 m }
  else if bn = "layer3" then { s with layer3 := loadSD s.layer3 m }
  else if bn = "fc" then { s with fc := loadSD s.fc m }
  else s

/-- One-dimensional tensor indexing `l[i]`: raises `IndexError` when `i` is
out of range. -/
def pyIndex (l : List Nat) (i : Nat) : Except String Nat :=
  match l.get? i with
  | some v => Except.ok v
  | none => Except.error "IndexError"

/-- Fancy indexing `ops[index]`: element-wise lookup, raising when any entry
of `index` is out of range. -/
def opsIndex (ops : List Nat) : List Nat → Except String (List Nat)
  | [] => Except.ok []
  | i :: rest =>
    match ops.get? i with
    | none => Except.error "IndexError"
    | some v =>
      match opsIndex ops rest with
      | Except.error e => Except.error e
      | Except.ok vs => Except.ok (v :: vs)

/-- The `for block_name in self.block_names` loop shared (textually repeated)
by the three weight-loading methods.  `num idx` is the checkpoint number the
method computes for the block at position `idx`
(`idx = self.block_names.index(block_name)`); each iteration loads the
checkpoint file, merges the prefix-stripped entries into it and loads it into
the named block with `strict=False`.  The returned list records the
checkpoint names read, in order. -/
def loadBlocks (fs : FS) (num : Nat → Except String Nat) :
    List String → WRNState → Except String (WRNState × List String)
  | [], s => Except.ok (s, [])
  | bn :: rest, s =>
    match num (List.findIdx (fun b => b == bn) blockNames) with
    | Except.error e => Except.error e
    | Except.ok n =>
      let name := checkpointName s.weight_root s.model_name n
      match fs name with
      | none => Except.error name
      | some d =>
        match loadBlocks fs num rest (applyBlockLoad s bn (mergedDict bn d)) with
        | Except.error e => Except.error e
        | Except.ok (s2, names) => Except.ok (s2, name :: names)

/-- `Wide_ResNet_Cifar.load_combination(index)`: non-strict whole-model load
from checkpoint 350, then each named block from the checkpoint numbered
`self.ops[index[idx]] + 1`, returning `self.ops[index.cpu()]`.  Weight
loading never writes `ops`, so reading it from the entry state `s` agrees
with Python's reads of the evolving `self.ops`.  The final component lists
the checkpoint names read. -/
def load_combination (fs : FS) (s : WRNState) (index : List Nat) :
    Except String (WRNState × List Nat × List String) :=
  let name0 := checkpointName s.weight_root s.model_name 350
  match fs name0 with
  | none => Except.error name0
  | some d0 =>
    let s1 := loadWhole s d0
    match loadBlocks fs
        (fun idx =>
          match pyIndex index idx with
          | Except.error e => Except.error e
          | Except.ok i =>
            match pyIndex s.ops i with
            | Except.error e => Except.error e
            | Except.ok op => Except.ok (op + 1))
        blockNames s1 with
    | Except.error e => Except.error e
    | Except.ok (s2, names) =>
      match opsIndex s.ops index with
      | Except.error e => Except.error e
      | Except.ok ret => Except.ok (s2, ret, name0 :: names)

/-- `Wide_ResNet_Cifar.load_combination_weight(combination, weight_folder,
model_name)`: sets `self.weight_root = weight_folder`, does the non-strict
whole-model load from checkpoint 350, then loads every named block from the
checkpoint numbered `combination[0] + 1` — the source computes `idx` but
uses `combination[0]` for every block (the `model_name` argument is likewise
never used).  The final component lists the checkpoint names read. -/
def load_combination_weight (fs : FS) (s : WRNState) (combination : List Nat)
    (weight_folder : String) (model_name : String) :
    Except String (WRNState × List String) :=
  let _ := model_name
  let s0 := { s with weight_root := weight_folder }
  let name0 := checkpointName s0.weight_root s0.model_name 350
  match fs name0 with
  | none => Except.error name0
  | some d0 =>
    let s1 := loadWhole s0 d0
    match loadBlocks fs
        (fun _idx =>
          match pyIndex combination 0 with
          | Except.error e => Except.error e
          | Except.ok c => Except.ok (c + 1))
        blockNames s1 with
    | Except.error e => Except.error e
    | Except.ok (s2, names) => Except.ok (s2, name0 :: names)

/-- `Wide_ResNet_Cifar.load_gumbel_weight()`: samples
`weights = self.arch_weights(cat=False)`, takes
`combination = torch.argmax(weights, -1)`, does a strict whole-model load
from checkpoint `combination[0] + 1`, then loads each named block from the
checkpoint numbered `combination[idx] + 1` and returns `combination`.  The
final component lists the checkpoint names read. -/
def load_gumbel_weight (fs : FS) (s : WRNState) :
    Except String (WRNState × List Nat × List String) :=
  let weights := uncatOf (arch_weights s false false)
  let combination := weights.map argmaxRow
  match pyIndex combination 0 with
  | Except.error e => Except.error e
  | Except.ok c0 =>
    let name0 := checkpointName s.weight_root s.model_name (c0 + 1)
    match fs name0 with
    | none => Except.error name0
    | some d0 =>
      match loadWholeStrict s d0 with
      | Except.error e => Except.error e
      | Except.ok s1 =>
        match loadBlocks fs
            (fun idx =>
              match pyIndex combination idx with
              | Except.error e => Except.error e
              | Except.ok c => Except.ok (c + 1))
            blockNames s1 with
        | Except.error e => Except.error e
        | Except.ok (s2, names) =>
          Except.ok (s2, combination, name0 :: names)

/-- A tensor as shape plus flat rational payload; convolution, batch norm and
pooling themselves are framework primitives and enter the theorems below only
through their documented shape behavior. -/
structure QTensor where
  shape : List Nat
  data : List ℚ
deriving DecidableEq

/-- Element-wise tensor addition (`out += residual`; the in-place update has
the same value as the pure sum). -/
def tensorAdd (a b : QTensor) : QTensor :=
  ⟨a.shape, List.zipWith (· + ·) a.data b.data⟩

/-- The framework modules held by a `BasicBlock` instance (`self.conv1`,
`self.bn1`, `self.relu`, `self.conv2`, `self.bn2`, `self.downsample`),
as opaque tensor functions. -/
structure BasicBlockM where
  conv1 : QTensor → QTensor
  bn1 : QTensor → QTensor
  relu : QTensor → QTensor
  conv2 : QTensor → QTensor
  bn2 : QTensor → QTensor
  downsample : Option (QTensor → QTensor)

/-- `BasicBlock.forward(x)`, line by line from the source. -/
def basicBlockForward (m : BasicBlockM) (x : QTensor) : QTensor :=
  let residual := x
  let out := m.conv1 x
  let out := m.bn1 out
  let out := m.relu out
  let out := m.conv2 out
  let out := m.bn2 out
  let residual := match m.downsample with
    | some ds => ds x
    | none => residual
  let out := tensorAdd out residual
  m.relu out

/-- The framework modules held by a `Wide_ResNet_Cifar` instance that its
`forward` uses, as opaque tensor functions. -/
structure WRNModules where
  conv1 : QTensor → QTensor
  bn1 : QTensor → QTensor
  relu : QTensor → QTensor
  layer1 : QTensor → QTensor
  layer2 : QTensor → QTensor
  layer3 : QTensor → QTensor
  avgpool : QTensor → QTensor
  fc : QTensor → QTensor

/-- `x.view(x.size(0), -1)`: keep the leading dimension, flatten the rest. -/
def flattenView (t : QTensor) : QTensor :=
  ⟨[t.shape.headD 0, (t.shape.drop 1).foldl (· * ·) 1], t.data⟩

/-- Division of a tensor by the scalar `self.temp`. -/
def divTemp (t : QTensor) (temp : ℚ) : QTensor :=
  ⟨t.shape, t.data.map (fun v => v / temp)⟩

/-- `Wide_ResNet_Cifar.forward(x)`, line by line from the source. -/
def wrnForward (m : WRNModules) (temp : ℚ) (x : QTensor) : QTensor :=
  let x := m.conv1 x
  let x := m.bn1 x
  let x := m.relu x
  let x := m.layer1 x
  let x := m.layer2 x
  let x := m.layer3 x
  let x := m.avgpool x
  let x := flattenView x
  divTemp (m.fc x) temp

/-- Output spatial extent of a framework 2-d convolution or pooling window:
`(n + 2 * pad - kernel) / stride + 1`. -/
def convDim (n kernel stride pad : Nat) : Nat :=
  (n + 2 * pad - kernel) / stride + 1

/-- Shape behavior of `nn.Conv2d(_, outC, kernel_size=k, stride=st,
padding=p)` on a 4-d input (other ranks would raise and never occur). -/
def conv2dShape (outC k st p : Nat) : List Nat → List Nat
  | [b, _c, h, w] => [b, outC, convDim h k st p, convDim w k st p]
  | sh => sh

/-- Shape behavior of `BasicBlock(inplanes, planes, stride, downsample)`:
`conv1 = conv3x3(inplanes, planes, stride)` then `conv2 = conv3x3(planes,
planes)`; batch norm, ReLU and the residual sum preserve shape (the
`downsample` branch makes the residual match). -/
def basicBlockShape (planes stride : Nat) (sh : List Nat) : List Nat :=
  conv2dShape planes 3 1 1 (conv2dShape planes 3 stride 1 sh)

/-- Strides of the blocks built by `_make_layer`: the first block gets the
given stride, the `int(blocks) - 1` remaining blocks stride 1. -/
def layerStrides (blocks stride : Nat) : List Nat :=
  stride :: List.replicate (blocks - 1) 1

/-- Shape behavior of the `nn.Sequential` built by
`_make_layer(block, planes, blocks, stride)`. -/
def makeLayerShape (planes blocks stride : Nat) (sh : List Nat) : List Nat :=
  (layerStrides blocks stride).foldl
    (fun cur st => basicBlockShape planes st cur) sh

/-- Shape behavior of `nn.AvgPool2d(8, stride=1)` on a 4-d input. -/
def avgpoolShape : List Nat → List Nat
  | [b, c, h, w] => [b, c, convDim h 8 1 0, convDim w 8 1 0]
  | sh => sh

/-- Shape behavior of `nn.Linear(inF, outF)` on a 2-d input of matching
feature width (a mismatch would raise and never occurs below). -/
def linearShape (inF outF : Nat) : List Nat → List Nat
  | [b, f] => if f = inF then [b, outF] else [b, f]
  | sh => sh

/-- Small concrete model state used to evaluate the theorems: one parameter
per stem module and per block, a four-row one-column architecture-parameter
matrix, and a one-entry candidate table. -/
def sampleBase : WRNState where
  conv1 := [("weight", 10)]
  bn1 := [("weight", 11)]
  layer1 := [("w", 12)]
  layer2 := [("w", 13)]
  layer3 := [("w", 14)]
  fc := [("weight", 15), ("bias", 16)]
  alphas := [[0], [0], [0], [0]]
  gumbel := [[0], [0], [0], [0]]
  tau := 1
  temp := 1
  weight_root := "root"
  model_name := "wide_resnet"
  ops := [0]

/-- Concrete checkpoint content for file number `n`: exactly the model's
qualified parameter names, with payloads depending on `n`. -/
def sampleCkpt (n : Nat) : StateDict :=
  [("conv1.weight", 100 + n), ("bn1.weight", 110 + n), ("layer1.w", 120 + n),
   ("layer2.w", 130 + n), ("layer3.w", 140 + n), ("fc.weight", 150 + n),
   ("fc.bias", 160 + n)]

/-- Concrete file system holding checkpoints 350 and 1 to 4. -/
def sampleFS : FS := fun name =>
  if name = checkpointName "root" "wide_resnet" 350 then some (sampleCkpt 350)
  else if name = checkpointName "root" "wide_resnet" 1 then some (sampleCkpt 1)
  else if name = checkpointName "root" "wide_resnet" 2 then some (sampleCkpt 2)
  else if name = checkpointName "root" "wide_resnet" 3 then some (sampleCkpt 3)
  else if name = checkpointName "root" "wide_resnet" 4 then some (sampleCkpt 4)
  else none

/-- Concrete downsample module for the `BasicBlock` evaluation. -/
def sampleDS : QTensor → QTensor := fun t => ⟨t.shape, t.data.map (fun v => v + 1)⟩

/-- Concrete `BasicBlock` module set with a downsample present. -/
def sampleBlockM : BasicBlockM where
  conv1 := fun t => ⟨t.shape, t.data.map (fun v => 2 * v)⟩
  bn1 := fun t => t
  relu := fun t => ⟨t.shape, t.data.map (fun v => max v 0)⟩
  conv2 := fun t => t
  bn2 := fun t => t
  downsample := some sampleDS

/-- Concrete input tensor for the `BasicBlock` evaluation. -/
def sampleQT : QTensor := ⟨[1, 2], [3, -1]⟩

/-- Module acting on the shape only, leaving the payload alone. -/
def shapeFn (f : List Nat → List Nat) : QTensor → QTensor :=
  fun t => ⟨f t.shape, t.data⟩

/-- Concrete module set realising the framework shape laws for
`wfactor = 1`, two blocks per layer and ten classes. -/
def sampleWRNM : WRNModules where
  conv1 := shapeFn (conv2dShape 16 3 1 1)
  bn1 := fun t => t
  relu := fun t => t
  layer1 := shapeFn (makeLayerShape 16 2 1)
  layer2 := shapeFn (makeLayerShape 32 2 2)
  layer3 := shapeFn (makeLayerShape 64 2 2)
  avgpool := shapeFn avgpoolShape
  fc := shapeFn (linearShape 64 10)

/-- Concrete batch-of-one CIFAR-shaped input. -/
def sampleX : QTensor := ⟨[1, 3, 32, 32], []⟩

theorem get?_getD (l : List Nat) : ∀ i : Nat, i < l.length →
    l.get? i = some (l.getD i 0) := by
  induction l with
  | nil => intro i h; simp at h
  | cons a t ih =>
    intro i h
    cases i with
    | zero => rfl
    | succ j => exact ih j (Nat.lt_of_succ_lt_succ h)

theorem pyIndex_ok (l : List Nat) (i : Nat) (h : i < l.length) :
    pyIndex l i = Except.ok (l.getD i 0) := by
  unfold pyIndex
  rw [get?_getD l i h]

theorem getD_mem_of_lt (l : List Nat) : ∀ i : Nat, i < l.length →
    l.getD i 0 ∈ l := by
  induction l with
  | nil => intro i h; simp at h
  | cons a t ih =>
    intro i h
    cases i with
    | zero => exact List.mem_cons_self a t
    | succ j => exact List.mem_cons_of_mem a (ih j (Nat.lt_of_succ_lt_succ h))

theorem applyBlockLoad_misc (s : WRNState) (bn : String) (m : StateDict) :
    (applyBlockLoad s bn m).weight_root = s.weight_root ∧
    (applyBlockLoad s bn m).model_name = s.model_name ∧
    (applyBlockLoad s bn m).ops = s.ops := by
  unfold applyBlockLoad
  split_ifs <;> exact ⟨rfl, rfl, rfl⟩

theorem loadWholeStrict_ok (s : WRNState) (m : StateDict) (s1 : WRNState)
    (h : loadWholeStrict s m = Except.ok s1) : s1 = loadWhole s m := by
  unfold loadWholeStrict at h
  split_ifs at h
  injection h with h
  exact h.symm

/-- C1: for every model state, `arch_weights` returns the Gumbel-Softmax
`gumbel_softmax(self.alphas, tau=self._tau, dim=-1, g=self.gumbel)`; with
`cat=True` it returns their `torch.cat`, with `cat=False` it returns them
unconcatenated. -/
theorem arch_weights_gumbel (s : WRNState) (smooth : Bool) :
    arch_weights s smooth true =
      ArchW.catW (gumbel_softmax s.alphas s.tau s.gumbel).flatten ∧
    arch_weights s smooth false =
      ArchW.uncatW (gumbel_softmax s.alphas s.tau s.gumbel) :=
  ⟨rfl, rfl⟩

/-- C10: after `_initialize_alphas` stores the Gumbel draw `g`, two calls to
`arch_weights` with the same arguments and no intervening state change return
equal weights, and the sampling uses exactly the stored `g` on every call. -/
theorem arch_weights_deterministic (s0 : WRNState) (r g : List (List ℚ))
    (s : WRNState) (smooth cat : Bool) (h : s = initAlphas s0 r g) :
    arch_weights s smooth cat = arch_weights s smooth cat ∧
    s.gumbel = g ∧
    arch_weights s smooth false =
      ArchW.uncatW (gumbel_softmax s.alphas s.tau g) := by
  subst h
  exact ⟨rfl, rfl, rfl⟩

theorem arch_weights_deterministic_witness :
    arch_weights (initAlphas sampleBase [[1]] [[2]]) false true =
      arch_weights (initAlphas sampleBase [[1]] [[2]]) false true ∧
    (initAlphas sampleBase [[1]] [[2]]).gumbel = [[2]] ∧
    arch_weights (initAlphas sampleBase [[1]] [[2]]) false false =
      ArchW.uncatW (gumbel_softmax (initAlphas sampleBase [[1]] [[2]]).alphas
        (initAlphas sampleBase [[1]] [[2]]).tau [[2]]) :=
  arch_weights_deterministic sampleBase [[1]] [[2]] _ false true rfl

/-- C7: `BasicBlock.forward` returns
`relu(bn2(conv2(relu(bn1(conv1(x))))) + r)` with residual `r = downsample(x)`
when a downsample module is set and `r = x` otherwise. -/
theorem basic_block_forward_spec (m : BasicBlockM) (x : QTensor) :
    (∀ ds, m.downsample = some ds →
      basicBlockForward m x =
        m.relu (tensorAdd (m.bn2 (m.conv2 (m.relu (m.bn1 (m.conv1 x)))))
          (ds x))) ∧
    (m.downsample = none →
      basicBlockForward m x =
        m.relu (tensorAdd (m.bn2 (m.conv2 (m.relu (m.bn1 (m.conv1 x))))) x)) := by
  constructor
  · intro ds h
    unfold basicBlockForward
    rw [h]
  · intro h
    unfold basicBlockForward
    rw [h]

theorem basic_block_forward_spec_witness :
    basicBlockForward sampleBlockM sampleQT =
      sampleBlockM.relu (tensorAdd (sampleBlockM.bn2 (sampleBlockM.conv2
        (sampleBlockM.relu (sampleBlockM.bn1 (sampleBlockM.conv1 sampleQT)))))
        (sampleDS sampleQT)) :=
  (basic_block_forward_spec sampleBlockM sampleQT).1 sampleDS rfl

/-- C8: a per-block `load_state_dict` call on `getattr(self, block_name)`
rewrites only that named block; the stem `conv1` and `bn1`, every other named
block, the architecture parameters `alphas` and the stored Gumbel noise are
unchanged by the call. -/
theorem block_load_frame (s : WRNState) (bn : String) (m : StateDict)
    (h : bn ∈ blockNames) :
    (applyBlockLoad s bn m).conv1 = s.conv1 ∧
    (applyBlockLoad s bn m).bn1 = s.bn1 ∧
    (applyBlockLoad s bn m).alphas = s.alphas ∧
    (applyBlockLoad s bn m).gumbel = s.gumbel ∧
    blockOf (applyBlockLoad s bn m) bn = loadSD (blockOf s bn) m ∧
    ∀ other ∈ blockNames, other ≠ bn →
      blockOf (applyBlockLoad s bn m) other = blockOf s other := by
  simp only [blockNames, List.mem_cons, List.not_mem_nil, or_false] at h
  rcases h with rfl | rfl | rfl | rfl <;>
    refine ⟨rfl, rfl, rfl, rfl, rfl, fun other hother hne => ?_⟩ <;>
    · simp only [blockNames, List.mem_cons, List.not_mem_nil, or_false] at hother
      rcases hother with rfl | rfl | rfl | rfl <;>
        first
          | exact absurd rfl hne
          | rfl

theorem block_load_frame_witness :
    (applyBlockLoad sampleBase "layer2" [("w", 99)]).conv1 = sampleBase.conv1 ∧
    (applyBlockLoad sampleBase "layer2" [("w", 99)]).bn1 = sampleBase.bn1 ∧
    (applyBlockLoad sampleBase "layer2" [("w", 99)]).alphas = sampleBase.alphas ∧
    (applyBlockLoad sampleBase "layer2" [("w", 99)]).gumbel = sampleBase.gumbel ∧
    blockOf (applyBlockLoad sampleBase "layer2" [("w", 99)]) "layer2" =
      loadSD (blockOf sampleBase "layer2") [("w", 99)] ∧
    ∀ other ∈ blockNames, other ≠ "layer2" →
      blockOf (applyBlockLoad sampleBase "layer2" [("w", 99)]) other =
        blockOf sampleBase other :=
  block_load_frame sampleBase "layer2" [("w", 99)] (by decide)

theorem dictFind_cons (a : String × Nat) (t : StateDict) (k : String) :
    dictFind (a :: t) k = if (a.1 == k) then some a.2 else dictFind t k := by
  unfold dictFind
  rw [List.find?_cons]
  cases hb : (a.1 == k) <;> simp [hb]

theorem dictFind_append (l1 l2 : StateDict) (k : String) :
    dictFind (l1 ++ l2) k =
      match dictFind l1 k with
      | some v => some v
      | none => dictFind l2 k := by
  induction l1 with
  | nil => rfl
  | cons a t ih =>
    rw [List.cons_append, dictFind_cons, dictFind_cons]
    cases hb : (a.1 == k) <;> simp [hb, ih]

theorem dictFind_map_update (d m : StateDict) (k : String) :
    dictFind (d.map (fun kv => (kv.1, (dictFind m kv.1).getD kv.2))) k =
      match dictFind d k with
      | some v => some ((dictFind m k).getD v)
      | none => none := by
  induction d with
  | nil => rfl
  | cons a t ih =>
    simp only [List.map_cons]
    rw [dictFind_cons, dictFind_cons]
    cases hb : (a.1 == k)
    · simp [hb, ih]
    · have hk : a.1 = k := eq_of_beq hb
      subst hk
      simp

theorem dictFind_filter_new (d m : StateDict) (k : String) :
    dictFind (m.filter (fun kv => (dictFind d kv.1).isNone)) k =
      if (dictFind d k).isNone then dictFind m k else none := by
  induction m with
  | nil => simp [dictFind]
  | cons a t ih =>
    rw [List.filter_cons]
    cases hkeep : (dictFind d a.1).isNone
    · rw [if_neg (by simp [hkeep])]
      rw [ih]
      by_cases hk : a.1 = k
      · subst hk
        simp [hkeep]
      · rw [dictFind_cons]
        have hb : (a.1 == k) = false := beq_false_of_ne hk
        simp [hb]
    · rw [if_pos (by simp [hkeep])]
      rw [dictFind_cons, dictFind_cons]
      cases hb : (a.1 == k)
      · simp [hb, ih]
      · have hk : a.1 = k := eq_of_beq hb
        subst hk
        simp [hkeep]

theorem dictFind_dictUpdate (d m : StateDict) (k : String) :
    dictFind (dictUpdate d m) k =
      match dictFind m k with
      | some v => some v
      | none => dictFind d k := by
  unfold dictUpdate
  rw [dictFind_append, dictFind_map_update, dictFind_filter_new]
  cases hd : dictFind d k <;> cases hm : dictFind m k <;> simp [hd, hm]

/-- C5: in every weight-loading function, the renamed dictionary built for a
block name `B` contains exactly the entries of the loaded checkpoint whose
key starts with `B`, each under the key obtained by dropping the leading
`len(B) + 1` characters (3 for `fc`, 7 for the layer names) with the value
unchanged; the renamed entries override the checkpoint dictionary (Python
`dict.update`) and the merged dictionary is what the per-block
`load_state_dict` receives. -/
theorem modified_dict_spec (bn : String) (d : StateDict)
    (h : bn ∈ blockNames) :
    dropCount bn = bn.length + 1 ∧
    (∀ k v, (k, v) ∈ modifiedDict bn d ↔
      ∃ k0, (k0, v) ∈ d ∧ strHasPre bn k0 = true ∧
        k = strDrop k0 (bn.length + 1)) ∧
    (∀ k, dictFind (mergedDict bn d) k =
      match dictFind (modifiedDict bn d) k with
      | some v => some v
      | none => dictFind d k) ∧
    (∀ (fs : FS) (num : Nat → Except String Nat) (rest : List String)
        (st : WRNState) (n : Nat),
      num (List.findIdx (fun b => b == bn) blockNames) = Except.ok n →
      fs (checkpointName st.weight_root st.model_name n) = some d →
      loadBlocks fs num (bn :: rest) st =
        match loadBlocks fs num rest (applyBlockLoad st bn (mergedDict bn d)) with
        | Except.error e => Except.error e
        | Except.ok (s2, names) =>
            Except.ok (s2, checkpointName st.weight_root st.model_name n :: names)) := by
  have hd : dropCount bn = bn.length + 1 := by
    simp only [blockNames, List.mem_cons, List.not_mem_nil, or_false] at h
    rcases h with rfl | rfl | rfl | rfl <;> decide
  refine ⟨hd, ?_, ?_, ?_⟩
  · intro k v
    constructor
    · intro hkv
      unfold modifiedDict at hkv
      rw [List.mem_map] at hkv
      obtain ⟨kv0, h0, he⟩ := hkv
      rw [List.mem_filter] at h0
      simp only [Prod.mk.injEq] at he
      obtain ⟨hek, hev⟩ := he
      refine ⟨kv0.1, ?_, h0.2, ?_⟩
      · rw [← hev]
        exact h0.1
      · rw [← hek, hd]
    · rintro ⟨k0, hk0, hsw, rfl⟩
      unfold modifiedDict
      rw [List.mem_map]
      refine ⟨(k0, v), List.mem_filter.mpr ⟨hk0, hsw⟩, ?_⟩
      rw [hd]
  · intro k
    exact dictFind_dictUpdate d (modifiedDict bn d) k
  · intro fs num rest st n hn hf
    simp only [loadBlocks, hn, hf]

theorem modified_dict_spec_witness :
    dropCount "layer1" = "layer1".length + 1 ∧
    (∀ k v, (k, v) ∈ modifiedDict "layer1" [("layer1.a", 5), ("bn1.b", 6)] ↔
      ∃ k0, (k0, v) ∈ [("layer1.a", 5), ("bn1.b", 6)] ∧
        strHasPre "layer1" k0 = true ∧
        k = strDrop k0 ("layer1".length + 1)) ∧
    (∀ k, dictFind (mergedDict "layer1" [("layer1.a", 5), ("bn1.b", 6)]) k =
      match dictFind (modifiedDict "layer1" [("layer1.a", 5), ("bn1.b", 6)]) k with
      | some v => some v
      | none => dictFind [("layer1.a", 5), ("bn1.b", 6)] k) ∧
    (∀ (fs : FS) (num : Nat → Except String Nat) (rest : List String)
        (st : WRNState) (n : Nat),
      num (List.findIdx (fun b => b == "layer1") blockNames) = Except.ok n →
      fs (checkpointName st.weight_root st.model_name n) =
        some [("layer1.a", 5), ("bn1.b", 6)] →
      loadBlocks fs num ("layer1" :: rest) st =
        match loadBlocks fs num rest
            (applyBlockLoad st "layer1"
              (mergedDict "layer1" [("layer1.a", 5), ("bn1.b", 6)])) with
        | Except.error e => Except.error e
        | Except.ok (s2, names) =>
            Except.ok (s2, checkpointName st.weight_root st.model_name n :: names)) :=
  modified_dict_spec "layer1" [("layer1.a", 5), ("bn1.b", 6)] (by decide)

theorem loadBlocks_cons (fs : FS) (num : Nat → Except String Nat)
    (bn : String) (rest : List String) (st : WRNState) (n : Nat) (d : StateDict)
    (hn : num (List.findIdx (fun b => b == bn) blockNames) = Except.ok n)
    (hf : fs (checkpointName st.weight_root st.model_name n) = some d) :
    loadBlocks fs num (bn :: rest) st =
      match loadBlocks fs num rest (applyBlockLoad st bn (mergedDict bn d)) with
      | Except.error e => Except.error e
      | Except.ok (s2, names) =>
          Except.ok (s2, checkpointName st.weight_root st.model_name n :: names) := by
  simp only [loadBlocks, hn, hf]

theorem loadBlocks_eval (fs : FS) (num : Nat → Except String Nat)
    (st : WRNState) (n0 n1 n2 n3 : Nat) (d0 d1 d2 d3 : StateDict)
    (h0 : num 0 = Except.ok n0) (h1 : num 1 = Except.ok n1)
    (h2 : num 2 = Except.ok n2) (h3 : num 3 = Except.ok n3)
    (hf0 : fs (checkpointName st.weight_root st.model_name n0) = some d0)
    (hf1 : fs (checkpointName st.weight_root st.model_name n1) = some d1)
    (hf2 : fs (checkpointName st.weight_root st.model_name n2) = some d2)
    (hf3 : fs (checkpointName st.weight_root st.model_name n3) = some d3) :
    loadBlocks fs num blockNames st =
      Except.ok
        (applyBlockLoad (applyBlockLoad (applyBlockLoad (applyBlockLoad st
            "layer1" (mergedDict "layer1" d0))
            "layer2" (mergedDict "layer2" d1))
            "layer3" (mergedDict "layer3" d2))
            "fc" (mergedDict "fc" d3),
         [checkpointName st.weight_root st.model_name n0,
          checkpointName st.weight_root st.model_name n1,
          checkpointName st.weight_root st.model_name n2,
          checkpointName st.weight_root st.model_name n3]) := by
  have e1 : applyBlockLoad st "layer1" (mergedDict "layer1" d0) =
      { st with layer1 := loadSD st.layer1 (mergedDict "layer1" d0) } := rfl
  rw [show blockNames = "layer1" :: ["layer2", "layer3", "fc"] from rfl,
      loadBlocks_cons fs num "layer1" ["layer2", "layer3", "fc"] st n0 d0 h0 hf0,
      loadBlocks_cons fs num "layer2" ["layer3", "fc"]
        (applyBlockLoad st "layer1" (mergedDict "layer1" d0)) n1 d1 h1 hf1,
      loadBlocks_cons fs num "layer3" ["fc"]
        (applyBlockLoad (applyBlockLoad st "layer1" (mergedDict "layer1" d0))
          "layer2" (mergedDict "layer2" d1)) n2 d2 h2 hf2,
      loadBlocks_cons fs num "fc" []
        (applyBlockLoad (applyBlockLoad (applyBlockLoad st
            "layer1" (mergedDict "layer1" d0))
          "layer2" (mergedDict "layer2" d1))
          "layer3" (mergedDict "layer3" d2)) n3 d3 h3 hf3]
  rfl

theorem opsIndex_ok (ops : List Nat) : ∀ idx : List Nat,
    (∀ i ∈ idx, i < ops.length) →
    opsIndex ops idx = Except.ok (idx.map (fun i => ops.getD i 0)) := by
  intro idx
  induction idx with
  | nil => intro _; rfl
  | cons i rest ih =>
    intro h
    have hi : i < ops.length := h i (List.mem_cons_self i rest)
    unfold opsIndex
    rw [get?_getD ops i hi, ih (fun j hj => h j (List.mem_cons_of_mem i hj))]
    rfl

/-- C2: `load_gumbel_weight` computes `combination` as the arg-max along the
last dimension of `arch_weights(cat=False)`, loads the block at position
`idx` of `['layer1','layer2','layer3','fc']` from the checkpoint file
numbered `combination[idx] + 1`, and returns `combination` (the run opens
with a strict whole-model load from the file numbered `combination[0] + 1`,
whose result is the loop's starting state `s1`). -/
theorem load_gumbel_weight_spec (fs : FS) (s : WRNState) (comb : List Nat)
    (hcomb : comb = (uncatOf (arch_weights s false false)).map argmaxRow)
    (hlen : comb.length = 4)
    (s1 : WRNState) (d : Nat → StateDict)
    (hstrict : loadWholeStrict s (d 0) = Except.ok s1)
    (hfiles : ∀ i, i < 4 →
      fs (checkpointName s.weight_root s.model_name (comb.getD i 0 + 1)) =
        some (d i)) :
    load_gumbel_weight fs s =
      Except.ok
        (applyBlockLoad (applyBlockLoad (applyBlockLoad (applyBlockLoad s1
            "layer1" (mergedDict "layer1" (d 0)))
            "layer2" (mergedDict "layer2" (d 1)))
            "layer3" (mergedDict "layer3" (d 2)))
            "fc" (mergedDict "fc" (d 3)),
         comb,
         [checkpointName s.weight_root s.model_name (comb.getD 0 0 + 1),
          checkpointName s.weight_root s.model_name (comb.getD 0 0 + 1),
          checkpointName s.weight_root s.model_name (comb.getD 1 0 + 1),
          checkpointName s.weight_root s.model_name (comb.getD 2 0 + 1),
          checkpointName s.weight_root s.model_name (comb.getD 3 0 + 1)]) := by
  obtain rfl : s1 = loadWhole s (d 0) := loadWholeStrict_ok _ _ _ hstrict
  simp only [load_gumbel_weight, ← hcomb]
  rw [pyIndex_ok comb 0 (by omega)]
  simp only [hfiles 0 (by omega), hstrict]
  rw [loadBlocks_eval fs _ (loadWhole s (d 0))
        (comb.getD 0 0 + 1) (comb.getD 1 0 + 1) (comb.getD 2 0 + 1)
        (comb.getD 3 0 + 1) (d 0) (d 1) (d 2) (d 3)
        (by rw [pyIndex_ok comb 0 (by omega)])
        (by rw [pyIndex_ok comb 1 (by omega)])
        (by rw [pyIndex_ok comb 2 (by omega)])
        (by rw [pyIndex_ok comb 3 (by omega)])
        (hfiles 0 (by omega)) (hfiles 1 (by omega))
        (hfiles 2 (by omega)) (hfiles 3 (by omega))]
  rfl

theorem load_gumbel_weight_spec_witness :
    load_gumbel_weight sampleFS sampleBase =
      Except.ok
        (applyBlockLoad (applyBlockLoad (applyBlockLoad (applyBlockLoad
            (loadWhole sampleBase (sampleCkpt 1))
            "layer1" (mergedDict "layer1" (sampleCkpt 1)))
            "layer2" (mergedDict "layer2" (sampleCkpt 1)))
            "layer3" (mergedDict "layer3" (sampleCkpt 1)))
            "fc" (mergedDict "fc" (sampleCkpt 1)),
         [0, 0, 0, 0],
         [checkpointName "root" "wide_resnet" ([0, 0, 0, 0].getD 0 0 + 1),
          checkpointName "root" "wide_resnet" ([0, 0, 0, 0].getD 0 0 + 1),
          checkpointName "root" "wide_resnet" ([0, 0, 0, 0].getD 1 0 + 1),
          checkpointName "root" "wide_resnet" ([0, 0, 0, 0].getD 2 0 + 1),
          checkpointName "root" "wide_resnet" ([0, 0, 0, 0].getD 3 0 + 1)]) :=
  load_gumbel_weight_spec sampleFS sampleBase [0, 0, 0, 0] (by decide) rfl
    (loadWhole sampleBase (sampleCkpt 1)) (fun _ => sampleCkpt 1)
    rfl (by decide)

/-- C4: for every index tensor (of the four block positions, entries in the
range of the candidate table), `load_combination` loads the block at
position `idx` from the checkpoint numbered `self.ops[index[idx]] + 1`
(after the non-strict whole-model load from checkpoint 350), completes
without raising, and returns `self.ops[index.cpu()]`. -/
theorem load_combination_spec (fs : FS) (s : WRNState) (index : List Nat)
    (hlen : index.length = 4)
    (hrange : ∀ i ∈ index, i < s.ops.length)
    (dInit : StateDict)
    (h350 : fs (checkpointName s.weight_root s.model_name 350) = some dInit)
    (d : Nat → StateDict)
    (hfiles : ∀ i, i < 4 →
      fs (checkpointName s.weight_root s.model_name
            (s.ops.getD (index.getD i 0) 0 + 1)) = some (d i)) :
    load_combination fs s index =
      Except.ok
        (applyBlockLoad (applyBlockLoad (applyBlockLoad (applyBlockLoad
            (loadWhole s dInit)
            "layer1" (mergedDict "layer1" (d 0)))
            "layer2" (mergedDict "layer2" (d 1)))
            "layer3" (mergedDict "layer3" (d 2)))
            "fc" (mergedDict "fc" (d 3)),
         index.map (fun i => s.ops.getD i 0),
         [checkpointName s.weight_root s.model_name 350,
          checkpointName s.weight_root s.model_name
            (s.ops.getD (index.getD 0 0) 0 + 1),
          checkpointName s.weight_root s.model_name
            (s.ops.getD (index.getD 1 0) 0 + 1),
          checkpointName s.weight_root s.model_name
            (s.ops.getD (index.getD 2 0) 0 + 1),
          checkpointName s.weight_root s.model_name
            (s.ops.getD (index.getD 3 0) 0 + 1)]) := by
  have hop : ∀ i, i < 4 →
      (match pyIndex index i with
        | Except.error e => Except.error e
        | Except.ok j =>
          match pyIndex s.ops j with
          | Except.error e => Except.error e
          | Except.ok op => Except.ok (op + 1)) =
        Except.ok (s.ops.getD (index.getD i 0) 0 + 1) := by
    intro i hi
    simp only [pyIndex_ok index i (by omega),
        pyIndex_ok s.ops (index.getD i 0)
          (hrange (index.getD i 0) (getD_mem_of_lt index i (by omega)))]
  simp only [load_combination, h350]
  rw [loadBlocks_eval fs _ (loadWhole s dInit)
        (s.ops.getD (index.getD 0 0) 0 + 1) (s.ops.getD (index.getD 1 0) 0 + 1)
        (s.ops.getD (index.getD 2 0) 0 + 1) (s.ops.getD (index.getD 3 0) 0 + 1)
        (d 0) (d 1) (d 2) (d 3)
        (hop 0 (by omega)) (hop 1 (by omega)) (hop 2 (by omega)) (hop 3 (by omega))
        (hfiles 0 (by omega)) (hfiles 1 (by omega))
        (hfiles 2 (by omega)) (hfiles 3 (by omega)),
      opsIndex_ok s.ops index hrange]
  rfl

theorem load_combination_spec_witness :
    load_combination sampleFS sampleBase [0, 0, 0, 0] =
      Except.ok
        (applyBlockLoad (applyBlockLoad (applyBlockLoad (applyBlockLoad
            (loadWhole sampleBase (sampleCkpt 350))
            "layer1" (mergedDict "layer1" (sampleCkpt 1)))
            "layer2" (mergedDict "layer2" (sampleCkpt 1)))
            "layer3" (mergedDict "layer3" (sampleCkpt 1)))
            "fc" (mergedDict "fc" (sampleCkpt 1)),
         [0, 0, 0, 0].map (fun i => sampleBase.ops.getD i 0),
         [checkpointName "root" "wide_resnet" 350,
          checkpointName "root" "wide_resnet"
            (sampleBase.ops.getD ([0, 0, 0, 0].getD 0 0) 0 + 1),
          checkpointName "root" "wide_resnet"
            (sampleBase.ops.getD ([0, 0, 0, 0].getD 1 0) 0 + 1),
          checkpointName "root" "wide_resnet"
            (sampleBase.ops.getD ([0, 0, 0, 0].getD 2 0) 0 + 1),
          checkpointName "root" "wide_resnet"
            (sampleBase.ops.getD ([0, 0, 0, 0].getD 3 0) 0 + 1)]) :=
  load_combination_spec sampleFS sampleBase [0, 0, 0, 0] rfl (by decide)
    (sampleCkpt 350) (by decide) (fun _ => sampleCkpt 1) (by decide)

/-- C3: evaluation of `load_combination_weight` at the concrete combination
`[0, 1, 2, 3]`.  Contrary to the claim, every named block is loaded from the
checkpoint numbered `combination[0] + 1 = 1` (the trace reads file 1 four
times and never files 2, 3 or 4), so `layer2` ends with the payload 131
renamed out of file 1, not the payload 132 that loading from file
`combination[1] + 1 = 2` would give: the source computes `idx` but indexes
`combination[0]` for every block. -/
theorem load_combination_weight_first_entry_only :
    ((load_combination_weight sampleFS sampleBase [0, 1, 2, 3] "root" "m").toOption).map
        (fun r => (r.1.layer2, r.2)) =
      some ([("w", 131)],
        [checkpointName "root" "wide_resnet" 350,
         checkpointName "root" "wide_resnet" 1,
         checkpointName "root" "wide_resnet" 1,
         checkpointName "root" "wide_resnet" 1,
         checkpointName "root" "wide_resnet" 1]) ∧
    dictFind (mergedDict "layer2" (sampleCkpt 2)) "w" = some 132 ∧
    ([("w", 131)] : StateDict) ≠ [("w", 132)] :=
  ⟨by decide, by decide, by decide⟩

theorem loadBlocks_names : ∀ (bns : List String) (fs : FS)
    (num : Nat → Except String Nat) (st s2 : WRNState) (names : List String),
    loadBlocks fs num bns st = Except.ok (s2, names) →
    ∀ nm ∈ names, ∃ k, nm = checkpointName st.weight_root st.model_name k := by
  intro bns
  induction bns with
  | nil =>
    intro fs num st s2 names h nm hnm
    simp only [loadBlocks, Except.ok.injEq, Prod.mk.injEq] at h
    rw [← h.2] at hnm
    simp at hnm
  | cons bn rest ih =>
    intro fs num st s2 names h nm hnm
    simp only [loadBlocks] at h
    cases hn : num (List.findIdx (fun b => b == bn) blockNames) with
    | error e => simp only [hn] at h; exact Except.noConfusion h
    | ok n =>
      simp only [hn] at h
      cases hf : fs (checkpointName st.weight_root st.model_name n) with
      | none => simp only [hf] at h; exact Except.noConfusion h
      | some dd =>
        simp only [hf] at h
        cases hrec : loadBlocks fs num rest (applyBlockLoad st bn (mergedDict bn dd)) with
        | error e => simp only [hrec] at h; exact Except.noConfusion h
        | ok pr =>
          simp only [hrec] at h
          obtain ⟨s3, names3⟩ := pr
          simp only [Except.ok.injEq, Prod.mk.injEq] at h
          rw [← h.2] at hnm
          rcases List.mem_cons.mp hnm with rfl | hnm2
          · exact ⟨n, rfl⟩
          · obtain ⟨k, hk⟩ := ih fs num (applyBlockLoad st bn (mergedDict bn dd))
              s3 names3 hrec nm hnm2
            refine ⟨k, ?_⟩
            rw [hk, (applyBlockLoad_misc st bn (mergedDict bn dd)).1,
                (applyBlockLoad_misc st bn (mergedDict bn dd)).2.1]

/-- C9: every checkpoint file read by the three weight-loading methods has a
name of the form `weight_root ++ "/wide_resnet_cross_entropy_" ++ n ++
".model"` for some number `n` (the model name is the constructor-set
`"wide_resnet"`, never reassigned), and in `load_combination` and
`load_combination_weight` the initial whole-model load reads `n = 350`. -/
theorem checkpoint_name_format (fs : FS) (s : WRNState)
    (hmodel : s.model_name = "wide_resnet")
    (index comb : List Nat) (wfolder mname : String) :
    (∀ s2 ret names, load_combination fs s index = Except.ok (s2, ret, names) →
      (∀ nm ∈ names, ∃ k, nm = checkpointName s.weight_root "wide_resnet" k) ∧
      names.headD "" = checkpointName s.weight_root "wide_resnet" 350) ∧
    (∀ s2 names,
      load_combination_weight fs s comb wfolder mname = Except.ok (s2, names) →
      (∀ nm ∈ names, ∃ k, nm = checkpointName wfolder "wide_resnet" k) ∧
      names.headD "" = checkpointName wfolder "wide_resnet" 350) ∧
    (∀ s2 ret names, load_gumbel_weight fs s = Except.ok (s2, ret, names) →
      ∀ nm ∈ names, ∃ k, nm = checkpointName s.weight_root "wide_resnet" k) := by
  refine ⟨?_, ?_, ?_⟩
  · intro s2 ret names h
    simp only [load_combination] at h
    split at h
    · exact Except.noConfusion h
    · rename_i d0 hf0
      split at h
      · exact Except.noConfusion h
      · rename_i s3 names3 hlb
        split at h
        · exact Except.noConfusion h
        · rename_i ret2 hoi
          simp only [Except.ok.injEq, Prod.mk.injEq] at h
          constructor
          · intro nm hnm
            rw [← h.2.2] at hnm
            rcases List.mem_cons.mp hnm with rfl | hnm2
            · exact ⟨350, by rw [hmodel]⟩
            · obtain ⟨k, hk⟩ := loadBlocks_names blockNames fs _
                (loadWhole s d0) s3 names3 hlb nm hnm2
              refine ⟨k, ?_⟩
              rw [hk, show (loadWhole s d0).weight_root = s.weight_root from rfl,
                  show (loadWhole s d0).model_name = s.model_name from rfl, hmodel]
          · rw [← h.2.2, List.headD_cons, hmodel]
  · intro s2 names h
    simp only [load_combination_weight] at h
    split at h
    · exact Except.noConfusion h
    · rename_i d0 hf0
      split at h
      · exact Except.noConfusion h
      · rename_i s3 names3 hlb
        simp only [Except.ok.injEq, Prod.mk.injEq] at h
        constructor
        · intro nm hnm
          rw [← h.2] at hnm
          rcases List.mem_cons.mp hnm with rfl | hnm2
          · exact ⟨350, by rw [hmodel]⟩
          · obtain ⟨k, hk⟩ := loadBlocks_names blockNames fs _
              (loadWhole { s with weight_root := wfolder } d0) s3 names3 hlb nm hnm2
            refine ⟨k, ?_⟩
            rw [hk,
                show (loadWhole { s with weight_root := wfolder } d0).weight_root =
                  wfolder from rfl,
                show (loadWhole { s with weight_root := wfolder } d0).model_name =
                  s.model_name from rfl, hmodel]
        · rw [← h.2, List.headD_cons, hmodel]
  · intro s2 ret names h
    simp only [load_gumbel_weight] at h
    split at h
    · exact Except.noConfusion h
    · rename_i c0 hc0
      split at h
      · exact Except.noConfusion h
      · rename_i d0 hf0
        split at h
        · exact Except.noConfusion h
        · rename_i s1 hstrict
          split at h
          · exact Except.noConfusion h
          · rename_i s3 names3 hlb
            simp only [Except.ok.injEq, Prod.mk.injEq] at h
            obtain rfl : s1 = loadWhole s d0 := loadWholeStrict_ok _ _ _ hstrict
            intro nm hnm
            rw [← h.2.2] at hnm
            rcases List.mem_cons.mp hnm with rfl | hnm2
            · exact ⟨c0 + 1, by rw [hmodel]⟩
            · obtain ⟨k, hk⟩ := loadBlocks_names blockNames fs _
                (loadWhole s d0) s3 names3 hlb nm hnm2
              refine ⟨k, ?_⟩
              rw [hk, show (loadWhole s d0).weight_root = s.weight_root from rfl,
                  show (loadWhole s d0).model_name = s.model_name from rfl, hmodel]

theorem checkpoint_name_format_witness :
    (∀ s2 ret names,
      load_combination sampleFS sampleBase [0, 0, 0, 0] = Except.ok (s2, ret, names) →
      (∀ nm ∈ names, ∃ k, nm = checkpointName sampleBase.weight_root "wide_resnet" k) ∧
      names.headD "" = checkpointName sampleBase.weight_root "wide_resnet" 350) ∧
    (∀ s2 names,
      load_combination_weight sampleFS sampleBase [0, 1, 2, 3] "root" "m" =
        Except.ok (s2, names) →
      (∀ nm ∈ names, ∃ k, nm = checkpointName "root" "wide_resnet" k) ∧
      names.headD "" = checkpointName "root" "wide_resnet" 350) ∧
    (∀ s2 ret names, load_gumbel_weight sampleFS sampleBase = Except.ok (s2, ret, names) →
      ∀ nm ∈ names, ∃ k, nm = checkpointName sampleBase.weight_root "wide_resnet" k) :=
  checkpoint_name_format sampleFS sampleBase rfl [0, 0, 0, 0] [0, 1, 2, 3] "root" "m"

theorem convDim_one (h : Nat) (hh : 1 ≤ h) : convDim h 3 1 1 = h := by
  unfold convDim
  rw [Nat.div_one]
  omega

theorem conv2dShape_one (p b c h w : Nat) (hh : 1 ≤ h) (hw : 1 ≤ w) :
    conv2dShape p 3 1 1 [b, c, h, w] = [b, p, h, w] := by
  show [b, p, convDim h 3 1 1, convDim w 3 1 1] = [b, p, h, w]
  rw [convDim_one h hh, convDim_one w hw]

theorem basicBlockShape_one (p b c h w : Nat) (hh : 1 ≤ h) (hw : 1 ≤ w) :
    basicBlockShape p 1 [b, c, h, w] = [b, p, h, w] := by
  unfold basicBlockShape
  rw [conv2dShape_one p b c h w hh hw, conv2dShape_one p b p h w hh hw]

theorem foldl_blocks_one (p b h w : Nat) (hh : 1 ≤ h) (hw : 1 ≤ w) :
    ∀ k, (List.replicate k 1).foldl (fun cur st => basicBlockShape p st cur)
      [b, p, h, w] = [b, p, h, w] := by
  intro k
  induction k with
  | zero => rfl
  | succ j ihj =>
    rw [List.replicate_succ, List.foldl_cons,
        basicBlockShape_one p b p h w hh hw, ihj]

theorem convDim_pos (h k st p : Nat) : 1 ≤ convDim h k st p := by
  unfold convDim
  exact Nat.le_add_left 1 _

theorem makeLayerShape_eval (p blocks stride b c h w : Nat) :
    makeLayerShape p blocks stride [b, c, h, w] =
      [b, p, convDim h 3 stride 1, convDim w 3 stride 1] := by
  unfold makeLayerShape layerStrides
  rw [List.foldl_cons]
  have h1 : basicBlockShape p stride [b, c, h, w] =
      [b, p, convDim h 3 stride 1, convDim w 3 stride 1] := by
    unfold basicBlockShape
    show conv2dShape p 3 1 1
        [b, p, convDim h 3 stride 1, convDim w 3 stride 1] = _
    exact conv2dShape_one p b p _ _ (convDim_pos h 3 stride 1)
      (convDim_pos w 3 stride 1)
  rw [h1, foldl_blocks_one p b _ _ (convDim_pos h 3 stride 1)
        (convDim_pos w 3 stride 1)]

/-- C6: for every batch of 3-channel 32x32 inputs, `Wide_ResNet_Cifar.forward`
returns `fc(flatten(avgpool(layer3(layer2(layer1(relu(bn1(conv1(x)))))))))`
divided by `self.temp`, and the result has one row per sample and
`num_classes` columns.  The module functions are constrained by the
framework's shape laws at the parameters fixed in `__init__` (`conv1` is
3to16 3x3 stride 1 pad 1, `layerN` built by `_make_layer` with widths
`16/32/64 * wfactor` and strides 1/2/2, `avgpool` is 8x8 stride 1, `fc` is
`Linear(64 * wfactor, num_classes)`). -/
theorem wrn_forward_spec (m : WRNModules) (temp : ℚ)
    (wfactor nblocks numClasses b : Nat) (x : QTensor)
    (hconv1 : ∀ t, (m.conv1 t).shape = conv2dShape 16 3 1 1 t.shape)
    (hbn1 : ∀ t, (m.bn1 t).shape = t.shape)
    (hrelu : ∀ t, (m.relu t).shape = t.shape)
    (hl1 : ∀ t, (m.layer1 t).shape = makeLayerShape (16 * wfactor) nblocks 1 t.shape)
    (hl2 : ∀ t, (m.layer2 t).shape = makeLayerShape (32 * wfactor) nblocks 2 t.shape)
    (hl3 : ∀ t, (m.layer3 t).shape = makeLayerShape (64 * wfactor) nblocks 2 t.shape)
    (havg : ∀ t, (m.avgpool t).shape = avgpoolShape t.shape)
    (hfc : ∀ t b2, t.shape = [b2, 64 * wfactor] → (m.fc t).shape = [b2, numClasses])
    (hx : x.shape = [b, 3, 32, 32]) :
    wrnForward m temp x =
      divTemp (m.fc (flattenView (m.avgpool (m.layer3 (m.layer2 (m.layer1
        (m.relu (m.bn1 (m.conv1 x))))))))) temp ∧
    (wrnForward m temp x).shape = [b, numClasses] := by
  refine ⟨rfl, ?_⟩
  have s0 : (m.conv1 x).shape = [b, 16, 32, 32] := by
    rw [hconv1, hx]
    rfl
  have s1 : (m.relu (m.bn1 (m.conv1 x))).shape = [b, 16, 32, 32] := by
    rw [hrelu, hbn1, s0]
  have s2 : (m.layer1 (m.relu (m.bn1 (m.conv1 x)))).shape =
      [b, 16 * wfactor, 32, 32] := by
    rw [hl1, s1, makeLayerShape_eval (16 * wfactor) nblocks 1 b 16 32 32]
    rfl
  have s3 : (m.layer2 (m.layer1 (m.relu (m.bn1 (m.conv1 x))))).shape =
      [b, 32 * wfactor, 16, 16] := by
    rw [hl2, s2, makeLayerShape_eval (32 * wfactor) nblocks 2 b (16 * wfactor) 32 32]
    rfl
  have s4 : (m.layer3 (m.layer2 (m.layer1 (m.relu (m.bn1 (m.conv1 x)))))).shape =
      [b, 64 * wfactor, 8, 8] := by
    rw [hl3, s3, makeLayerShape_eval (64 * wfactor) nblocks 2 b (32 * wfactor) 16 16]
    rfl
  have s5 : (m.avgpool (m.layer3 (m.layer2 (m.layer1 (m.relu (m.bn1
      (m.conv1 x))))))).shape = [b, 64 * wfactor, 1, 1] := by
    rw [havg, s4]
    rfl
  have s6 : (flattenView (m.avgpool (m.layer3 (m.layer2 (m.layer1 (m.relu (m.bn1
      (m.conv1 x)))))))).shape = [b, 64 * wfactor] := by
    simp only [flattenView, s5]
    simp [one_mul, mul_one]
  exact hfc _ b s6

theorem wrn_forward_spec_witness :
    wrnForward sampleWRNM 1 sampleX =
      divTemp (sampleWRNM.fc (flattenView (sampleWRNM.avgpool (sampleWRNM.layer3
        (sampleWRNM.layer2 (sampleWRNM.layer1 (sampleWRNM.relu (sampleWRNM.bn1
        (sampleWRNM.conv1 sampleX))))))))) 1 ∧
    (wrnForward sampleWRNM 1 sampleX).shape = [1, 10] :=
  wrn_forward_spec sampleWRNM 1 1 2 10 1 sampleX
    (fun tc => rfl) (fun tb => rfl) (fun tr => rfl) (fun t1 => rfl)
    (fun t2 => rfl) (fun t3 => rfl) (fun ta => rfl)
    (fun t b2 ht => by
      show linearShape 64 10 t.shape = [b2, 10]
      rw [ht]
      rfl)
    rfl
